import Mathlib

/-
Verification of the jexl engine: a JSON expression language with a
tree-walking evaluator (src/unnamed/part_000 and part_001, two copies of the
interpreter), a macro expander (src/src/macro.ts), and a program runner.

Modelling conventions:
- Host numbers (IEEE doubles in the source host language) are modelled as Int.
  All programs examined by the claims compute on integer values only.  NaN is
  modelled by a dedicated JSVal constructor; nonempty numeric strings, the
  ToPrimitive coercion of compound values, and fractional division results are
  outside the integer model and are folded to nan (noted at each definition).
- The host Map is modelled as an association list where set conses in front
  and lookup takes the first match; this coincides with Map set/get/has for
  every lookup the engine performs (the engine never enumerates a Map after
  construction except for the builtin table, built once by a fold).
- Mutable environment frames are modelled by explicit state passing.  In the
  source, setVar and defineFunction write only into the receiving frame, never
  into an ancestor, so evaluation can only change the current (head) frame;
  the evaluator therefore returns the updated current frame and treats parent
  frames as read-only.
- The evaluator and the macro expander recurse through user function bodies
  and macro bodies, which is not structurally decreasing, so both take a fuel
  argument consumed at every recursion step; fuel exhaustion is a distinct
  outcome (Err.outOfFuel / none) that the source has no counterpart for
  (the source simply diverges or exhausts the host stack).
- Reference identity of host values ("===" on sequences and mappings) is
  modelled by an identity tag on arr and obj values: two values are the same
  host reference exactly when they carry the same tag.
-/

namespace Jexl

mutual

/-- Runtime values of the interpreter (JexlValue in the source, extended with
the host artifacts the interpreter actually produces: undefined is returned
by print, NaN by numeric coercion failures).  arr and obj carry an identity
tag modelling host reference identity. -/
inductive JSVal where
| str (s : String)
| num (n : Int)
| nan
| bool (b : Bool)
| null
| undefV
| arr (id : Nat) (elems : JSList)
| obj (id : Nat) (fields : JSFields)

inductive JSList where
| nil
| cons (head : JSVal) (tail : JSList)

inductive JSFields where
| fnil
| fcons (key : String) (val : JSVal) (rest : JSFields)

end

mutual

/-- Structural equality on runtime values: element-wise on sequences and
mappings, ignoring identity tags.  This is the notion of equality the spec
ascribes to the equals builtin. -/
def structEq : JSVal → JSVal → Bool
| .str a, .str b => a == b
| .num a, .num b => a == b
| .nan, .nan => true
| .bool a, .bool b => a == b
| .null, .null => true
| .undefV, .undefV => true
| .arr _ xs, .arr _ ys => structEqL xs ys
| .obj _ fs, .obj _ gs => structEqF fs gs
| _, _ => false

def structEqL : JSList → JSList → Bool
| .nil, .nil => true
| .cons x xs, .cons y ys => structEq x y && structEqL xs ys
| _, _ => false

def structEqF : JSFields → JSFields → Bool
| .fnil, .fnil => true
| .fcons k v r, .fcons k2 v2 r2 => k == k2 && structEq v v2 && structEqF r r2
| _, _ => false

end

/-- Host strict equality ("a === b" in the source equals builtin): value
equality on primitives (with NaN equal to nothing, itself included),
reference identity on sequences and mappings. -/
def strictEq : JSVal → JSVal → Bool
| .nan, _ => false
| _, .nan => false
| .str a, .str b => a == b
| .num a, .num b => a == b
| .bool a, .bool b => a == b
| .null, .null => true
| .undefV, .undefV => true
| .arr i _, .arr j _ => i == j
| .obj i _, .obj j _ => i == j
| _, _ => false

/-- Primitive (non-reference, non-NaN) values: the value domain the spec
describes.  NaN and the reference values are excluded. -/
def isPrim : JSVal → Bool
| .str _ => true
| .num _ => true
| .bool _ => true
| .null => true
| .undefV => true
| _ => false

/-- Host truthiness of a runtime value, as used by the if expression of the
evaluator ("condResult ? ... : ..."): false, null, undefined, NaN, 0 and the
empty string are falsy; everything else, sequences and mappings included, is
truthy. -/
def truthyVal : JSVal → Bool
| .bool b => b
| .null => false
| .undefV => false
| .nan => false
| .num n => !(n == 0)
| .str s => !(s == "")
| .arr _ _ => true
| .obj _ _ => true

/-- Host numeric coercion (Number(x)), with none standing for NaN.
Unmodelled corners, never exercised by the interpreter on the programs the
claims concern: nonempty numeric strings (host parses them), sequences and
mappings (host applies ToPrimitive); both are folded to NaN here. -/
def toNumber : JSVal → Option Int
| .num n => some n
| .nan => none
| .bool b => some (if b then 1 else 0)
| .null => some 0
| .undefV => none
| .str s => if s == "" then some 0 else none
| .arr _ _ => none
| .obj _ _ => none

/-- Decimal rendering of an integer, used by host string coercion. -/
def intToString (n : Int) : String := toString n

mutual

/-- Host string coercion (String(x)).  Sequences render as their elements
joined by commas and mappings as the host default tag, matching the host
default toString. -/
def jsToString : JSVal → String
| .str s => s
| .num n => intToString n
| .nan => "NaN"
| .bool b => if b then "true" else "false"
| .null => "null"
| .undefV => "undefined"
| .arr _ es => String.intercalate "," (jsToStringL es)
| .obj _ _ => "[object Object]"

def jsToStringL : JSList → List String
| .nil => []
| .cons v r => jsToString v :: jsToStringL r

end

/-- Host addition ("a + b"): string concatenation when either operand is a
string, numeric addition otherwise, NaN-propagating. -/
def jsAdd (a b : JSVal) : JSVal :=
  match a, b with
  | .str s, _ => .str (s ++ jsToString b)
  | _, .str s => .str (jsToString a ++ s)
  | _, _ =>
    match toNumber a, toNumber b with
    | some x, some y => .num (x + y)
    | _, _ => .nan

/-- Host subtraction ("a - b"): numeric, NaN-propagating. -/
def jsSub (a b : JSVal) : JSVal :=
  match toNumber a, toNumber b with
  | some x, some y => .num (x - y)
  | _, _ => .nan

/-- Host multiplication ("a * b"): numeric, NaN-propagating. -/
def jsMul (a b : JSVal) : JSVal :=
  match toNumber a, toNumber b with
  | some x, some y => .num (x * y)
  | _, _ => .nan

/-- Host division ("a / b") restricted to the integer model: exact integer
quotients are produced; fractional results, division by zero (host Infinity)
and 0/0 (host NaN) are folded to nan.  No claim exercises divide. -/
def jsDiv (a b : JSVal) : JSVal :=
  match toNumber a, toNumber b with
  | some x, some y => if y == 0 then .nan else if x % y == 0 then .num (x / y) else .nan
  | _, _ => .nan

/-- Lexicographic order on character lists, modelling host string
comparison. -/
def lexLt : List Char → List Char → Bool
| [], [] => false
| [], _ :: _ => true
| _ :: _, [] => false
| a :: as, b :: bs => if a < b then true else if b < a then false else lexLt as bs

/-- Host less-than ("a < b"): lexicographic when both operands are strings,
numeric otherwise with NaN comparisons false. -/
def jsLess (a b : JSVal) : Bool :=
  match a, b with
  | .str s, .str t => lexLt s.data t.data
  | _, _ =>
    match toNumber a, toNumber b with
    | some x, some y => decide (x < y)
    | _, _ => false

/-- Host greater-than ("a > b"). -/
def jsGreater (a b : JSVal) : Bool :=
  match a, b with
  | .str s, .str t => lexLt t.data s.data
  | _, _ =>
    match toNumber a, toNumber b with
    | some x, some y => decide (y < x)
    | _, _ => false

/-- The nine builtins installed by createGlobalEnv, in source declaration
order. -/
inductive BuiltinName where
| add
| subtract
| multiply
| divide
| less
| greater
| equals
| print
| concat
deriving DecidableEq

/-- The parameter count each builtin declares in the source (the lambda
arities); print and concat declare a rest parameter, hence no fixed count. -/
def builtinParamCount : BuiltinName → Option Nat
| .add => some 2
| .subtract => some 2
| .multiply => some 2
| .divide => some 2
| .less => some 2
| .greater => some 2
| .equals => some 2
| .print => none
| .concat => none

/-- Output channel: each print call logs its argument list (console.log). -/
abbrev Output := List (List JSVal)

/-- Host call semantics for a fixed-arity lambda: a missing argument is
undefined, extra arguments are ignored. -/
def argD (args : List JSVal) (i : Nat) : JSVal := args.getD i .undefV

/-- Apply a builtin to an evaluated argument list (host call semantics:
missing arguments are undefined, extra arguments ignored).  Builtins never
fail; print appends to the output log and returns undefined (console.log). -/
def applyBuiltin : BuiltinName → List JSVal → Output → Output × JSVal
| .add, args, out => (out, jsAdd (argD args 0) (argD args 1))
| .subtract, args, out => (out, jsSub (argD args 0) (argD args 1))
| .multiply, args, out => (out, jsMul (argD args 0) (argD args 1))
| .divide, args, out => (out, jsDiv (argD args 0) (argD args 1))
| .less, args, out => (out, .bool (jsLess (argD args 0) (argD args 1)))
| .greater, args, out => (out, .bool (jsGreater (argD args 0) (argD args 1)))
| .equals, args, out => (out, .bool (strictEq (argD args 0) (argD args 1)))
| .print, args, out => (out ++ [args], .undefV)
| .concat, args, out => (out, .str (String.join (args.map jsToString)))

/-- Abstract syntax of Expressions (the Expression union of the grammar,
matched in the key-dispatch order of the evaluator).  Function parameters
are the [name, type] pairs the evaluator destructures; macro parameters keep
only the name the expander uses. -/
inductive Expr where
| str (s : String)
| num (n : Int)
| bool (b : Bool)
| null
| ref (name : String)
| letE (name : String) (value : Expr)
| doE (body : List Expr)
| ifE (condition : Expr) (thenB : Option Expr) (elseB : Option Expr)
| fnDef (name : String) (params : List (String × String)) (body : Expr)
| macDef (name : String) (params : List String) (body : Expr)
| imp (module : String) (symbols : List String)
| call (target : String) (args : List Expr)

/-- Errors thrown by the interpreter (plus the fuel artifact of the model). -/
inductive Err where
| undefinedVariable (name : String)
| undefinedFunction (name : String)
| arityMismatch (fname : String) (expected : Nat) (actual : Nat)
| macroNotImplemented
| moduleNotImplemented
| invalidExpression
| invalidProgramTypes
| outOfFuel
deriving DecidableEq

/-- A function table entry: a builtin primitive or a user {params, body}
record.  The source stores no defining environment with user functions. -/
inductive FuncVal where
| builtin (b : BuiltinName)
| user (params : List (String × String)) (body : Expr)

/-- One environment frame: two independent namespaces (vars, functions),
each an association list with cons-front set and first-match lookup. -/
structure Frame where
  vars : List (String × JSVal)
  functions : List (String × FuncVal)

/-- Environment.getVar restricted to one frame: this.vars.has / get. -/
def frameVarLookup (n : String) (f : Frame) : Option JSVal :=
  (f.vars.find? (fun kv => kv.1 == n)).map (fun kv => kv.2)

/-- Environment.getFunction restricted to one frame. -/
def frameFunLookup (n : String) (f : Frame) : Option FuncVal :=
  (f.functions.find? (fun kv => kv.1 == n)).map (fun kv => kv.2)

/-- Environment.setVar: writes into the receiving (current) frame only. -/
def frameSetVar (n : String) (v : JSVal) (f : Frame) : Frame :=
  { f with vars := (n, v) :: f.vars }

/-- Environment.defineFunction: writes into the receiving frame only. -/
def frameDefineFunction (n : String) (fn : FuncVal) (f : Frame) : Frame :=
  { f with functions := (n, fn) :: f.functions }

/-- An environment chain, current frame first (each frame's parent is the
next list entry; nil parent at the end). -/
abbrev EnvChain := List Frame

/-- Environment.getVar: current frame first, then the parent chain; an
unresolved name is an error naming the identifier. -/
def getVarChain (n : String) : EnvChain → Except Err JSVal
| [] => .error (.undefinedVariable n)
| f :: ps =>
  match frameVarLookup n f with
  | some v => .ok v
  | none => getVarChain n ps

/-- Environment.getFunction: current frame first, then the parent chain. -/
def getFunctionChain (n : String) : EnvChain → Except Err FuncVal
| [] => .error (.undefinedFunction n)
| f :: ps =>
  match frameFunLookup n f with
  | some fn => .ok fn
  | none => getFunctionChain n ps

/-- Environment.setVar as an operation on a chain: the method only ever
writes the current (head) frame; ancestors are untouched. -/
def setVarChain (n : String) (v : JSVal) : EnvChain → EnvChain
| [] => []
| f :: ps => frameSetVar n v f :: ps

/-- The empty frame (new Environment). -/
def emptyFrame : Frame := { vars := [], functions := [] }

/-- The builtin table, in source declaration order. -/
def builtinsList : List (String × BuiltinName) :=
  [("add", .add), ("subtract", .subtract), ("multiply", .multiply),
   ("divide", .divide), ("less", .less), ("greater", .greater),
   ("equals", .equals), ("print", .print), ("concat", .concat)]

/-- createGlobalEnv: a fresh root frame with every builtin defined. -/
def createGlobalEnv : Frame :=
  builtinsList.foldl (fun f nb => frameDefineFunction nb.1 (.builtin nb.2) f) emptyFrame

/-- Parameter binding for a user function call: a fresh frame into which
each parameter name is bound positionally (forEach setVar over the zip of
parameters and evaluated arguments). -/
def bindParams (params : List (String × String)) (vs : List JSVal) : Frame :=
  (params.zip vs).foldl (fun f pv => frameSetVar pv.1.1 pv.2 f) emptyFrame

/-- Host truthiness of an Expression node itself, as a host value: the if
case of the evaluator guards each branch with the node ("thenExpr ?"), so a
branch that is a falsy literal is treated like an absent branch.  All
object-shaped nodes are truthy. -/
def nodeTruthy : Expr → Bool
| .str s => !(s == "")
| .num n => !(n == 0)
| .bool b => b
| .null => false
| _ => true

mutual

/-- The evaluator (evaluate in the source), with explicit state passing:
given fuel, an expression, the current frame, the parent chain and the
output log so far, produce the updated log and either an error or the value
together with the updated current frame.  Writes during evaluation only ever
target the current frame (setVar and defineFunction write the receiving
frame), so parent frames pass through unchanged.  Fuel is consumed at every
recursion step; outOfFuel models divergence, which the source realises as
unbounded recursion. -/
def evalExpr : Nat → Expr → Frame → List Frame → Output → Output × Except Err (JSVal × Frame)
| 0, _, _, _, out => (out, .error .outOfFuel)
| _+1, .str s, cur, _, out => (out, .ok (.str s, cur))
| _+1, .num n, cur, _, out => (out, .ok (.num n, cur))
| _+1, .bool b, cur, _, out => (out, .ok (.bool b, cur))
| _+1, .null, cur, _, out => (out, .ok (.null, cur))
| _+1, .ref x, cur, ps, out =>
  (out, (getVarChain x (cur :: ps)).map (fun v => (v, cur)))
| n+1, .letE nm v, cur, ps, out =>
  match evalExpr n v cur ps out with
  | (out1, .ok (val, cur1)) => (out1, .ok (val, frameSetVar nm val cur1))
  | (out1, .error er) => (out1, .error er)
| n+1, .doE es, cur, ps, out => evalDo n es .null cur ps out
| n+1, .ifE c t e, cur, ps, out =>
  match evalExpr n c cur ps out with
  | (out1, .ok (cv, cur1)) =>
    if truthyVal cv then evalBranch n t cur1 ps out1
    else evalBranch n e cur1 ps out1
  | (out1, .error er) => (out1, .error er)
| _+1, .fnDef nm params body, cur, _, out =>
  (out, .ok (.null, frameDefineFunction nm (.user params body) cur))
| _+1, .macDef _ _ _, _, _, out => (out, .error .macroNotImplemented)
| _+1, .imp _ _, _, _, out => (out, .error .moduleNotImplemented)
| n+1, .call target args, cur, ps, out =>
  match getFunctionChain target (cur :: ps) with
  | .error er => (out, .error er)
  | .ok fn =>
    match evalArgs n args cur ps out with
    | (out1, .error er) => (out1, .error er)
    | (out1, .ok (vs, cur1)) =>
      match fn with
      | .builtin b =>
        match applyBuiltin b vs out1 with
        | (out2, v) => (out2, .ok (v, cur1))
      | .user params body =>
        if params.length != vs.length then
          (out1, .error (.arityMismatch target params.length vs.length))
        else
          match evalExpr n body (bindParams params vs) (cur1 :: ps) out1 with
          | (out2, .ok (v, _)) => (out2, .ok (v, cur1))
          | (out2, .error er) => (out2, .error er)

/-- Evaluate an if branch: absent branches and branches that are falsy as
host values yield null without being evaluated ("thenExpr ?
evaluate(thenExpr, env) : null"). -/
def evalBranch : Nat → Option Expr → Frame → List Frame → Output → Output × Except Err (JSVal × Frame)
| 0, _, _, _, out => (out, .error .outOfFuel)
| _+1, none, cur, _, out => (out, .ok (.null, cur))
| n+1, some b, cur, ps, out =>
  if nodeTruthy b then evalExpr n b cur ps out
  else (out, .ok (.null, cur))

/-- Evaluate call arguments left to right, threading frame and output. -/
def evalArgs : Nat → List Expr → Frame → List Frame → Output → Output × Except Err (List JSVal × Frame)
| 0, _, _, _, out => (out, .error .outOfFuel)
| _+1, [], cur, _, out => (out, .ok ([], cur))
| n+1, e :: es, cur, ps, out =>
  match evalExpr n e cur ps out with
  | (out1, .ok (v, cur1)) =>
    match evalArgs n es cur1 ps out1 with
    | (out2, .ok (vs, cur2)) => (out2, .ok (v :: vs, cur2))
    | (out2, .error er) => (out2, .error er)
  | (out1, .error er) => (out1, .error er)

/-- Evaluate a do block: each element in sequence, returning the last
result, null for an empty block. -/
def evalDo : Nat → List Expr → JSVal → Frame → List Frame → Output → Output × Except Err (JSVal × Frame)
| 0, _, _, _, _, out => (out, .error .outOfFuel)
| _+1, [], acc, cur, _, out => (out, .ok (acc, cur))
| n+1, e :: es, _, cur, ps, out =>
  match evalExpr n e cur ps out with
  | (out1, .ok (v, cur1)) => evalDo n es v cur1 ps out1
  | (out1, .error er) => (out1, .error er)

end

/-- Generic JSON documents, the shape of declared type schemas.  The engine
never inspects their structure; it only hands each document to the external
schema validator, which this development abstracts as a Bool-valued
parameter. -/
inductive Json where
| str (s : String)
| num (n : Int)
| bool (b : Bool)
| null
| arr (elems : List Json)
| obj (fields : List (String × Json))

/-- A Module of the grammar: optional locally declared types plus exported
Expressions. -/
structure ModuleT where
  types : Option (List (String × Json))
  exports : List Expr

/-- A shape-valid Program: version tag, name, optional type declarations,
optional modules, and the top-level expression sequence.  jexl_version and
name are carried for completeness; neither validateProgramTypes nor
runProgram reads them. -/
structure ProgramT where
  jexl_version : String
  name : String
  types : Option (List (String × Json))
  modules : Option (List (String × ModuleT))
  program : List Expr

/-- validateProgramTypes: every declared type document at the program level
and in every module must pass the external schema validator vjs.  Absent
declarations pass trivially. -/
def validateProgramTypes (vjs : Json → Bool) (p : ProgramT) : Bool :=
  (match p.types with
   | none => true
   | some ts => ts.all (fun kv => vjs kv.2)) &&
  (match p.modules with
   | none => true
   | some ms => ms.all (fun km =>
       match km.2.types with
       | none => true
       | some ts => ts.all (fun kv => vjs kv.2)))

/-- The top-level loop of runProgram: evaluate each expression in order in
the root environment, threading the root frame and the output log, halting
at the first error. -/
def runSeq (fuel : Nat) : List Expr → Frame → List Frame → Output → Output × Except Err Frame
| [], cur, _, out => (out, .ok cur)
| e :: es, cur, ps, out =>
  match evalExpr fuel e cur ps out with
  | (out1, .ok (_, cur1)) => runSeq fuel es cur1 ps out1
  | (out1, .error er) => (out1, .error er)

/-- runProgram: reject if type-schema validation fails (before anything is
evaluated or printed), otherwise install the builtins into a fresh root
environment and evaluate the top-level sequence in order.  The source also
guards against a missing program field, which a shape-valid Program always
has (an empty array is host-truthy), so that guard never fires here. -/
def runProgram (vjs : Json → Bool) (fuel : Nat) (p : ProgramT) : Output × Except Err Frame :=
  if validateProgramTypes vjs p then
    runSeq fuel p.program createGlobalEnv [] []
  else
    ([], .error .invalidProgramTypes)

/-- Modelled from the spec: the top-level macro table, collected from the
MacroDef entries of the top-level sequence (later definitions shadow
earlier ones, as a host Map set would).  The source runProgram has no such
collection step; this definition exists to state the orchestration contract
the spec describes. -/
def collectMacros (es : List Expr) : List (String × (List String × Expr)) :=
  es.foldl
    (fun tbl e =>
      match e with
      | .macDef nm params body => (nm, (params, body)) :: tbl
      | _ => tbl)
    []

/-- Is this top-level entry a MacroDef (consumed by expansion per the
spec)? -/
def isMDef : Expr → Bool
| .macDef _ _ _ => true
| _ => false

mutual

/-- Modelled from the spec: syntactic substitution of unevaluated argument
expressions for the bound parameter names inside a macro body, over the
typed Expression syntax.  The source substitute works on the generic tree
(modelled separately below); this typed version exists only to state the
runProgram orchestration contract.  Fuel is a model artifact. -/
def substT (b : List (String × Expr)) : Nat → Expr → Option Expr
| 0, _ => none
| _+1, .str s => some (.str s)
| _+1, .num n => some (.num n)
| _+1, .bool v => some (.bool v)
| _+1, .null => some .null
| _+1, .ref x =>
  match b.find? (fun kv => kv.1 == x) with
  | some kv => some kv.2
  | none => some (.ref x)
| n+1, .letE nm v => (substT b n v).map (fun v1 => .letE nm v1)
| n+1, .doE es => (substTL b n es).map .doE
| n+1, .ifE c t e =>
  match substT b n c, substTO b n t, substTO b n e with
  | some c1, some t1, some e1 => some (.ifE c1 t1 e1)
  | _, _, _ => none
| n+1, .fnDef nm params body => (substT b n body).map (fun b1 => .fnDef nm params b1)
| n+1, .macDef nm params body => (substT b n body).map (fun b1 => .macDef nm params b1)
| _+1, .imp m s => some (.imp m s)
| n+1, .call tgt args => (substTL b n args).map (fun as1 => .call tgt as1)

def substTL (b : List (String × Expr)) : Nat → List Expr → Option (List Expr)
| 0, _ => none
| _+1, [] => some []
| n+1, e :: es =>
  match substT b n e, substTL b n es with
  | some e1, some es1 => some (e1 :: es1)
  | _, _ => none

def substTO (b : List (String × Expr)) : Nat → Option Expr → Option (Option Expr)
| 0, _ => none
| _+1, none => some none
| n+1, some e => (substT b n e).map some

end

mutual

/-- Modelled from the spec: macro expansion over the typed Expression
syntax, for stating the runProgram orchestration contract: a Call whose
target is in the macro table is replaced by the macro body with each
parameter name bound positionally to the unevaluated argument, and the
substituted result is re-expanded; every other node is rebuilt with its
children expanded. -/
def expandT (tbl : List (String × (List String × Expr))) : Nat → Expr → Option Expr
| 0, _ => none
| _+1, .str s => some (.str s)
| _+1, .num n => some (.num n)
| _+1, .bool v => some (.bool v)
| _+1, .null => some .null
| _+1, .ref x => some (.ref x)
| n+1, .letE nm v => (expandT tbl n v).map (fun v1 => .letE nm v1)
| n+1, .doE es => (expandTL tbl n es).map .doE
| n+1, .ifE c t e =>
  match expandT tbl n c, expandTO tbl n t, expandTO tbl n e with
  | some c1, some t1, some e1 => some (.ifE c1 t1 e1)
  | _, _, _ => none
| n+1, .fnDef nm params body => (expandT tbl n body).map (fun b1 => .fnDef nm params b1)
| _+1, .macDef nm params body => some (.macDef nm params body)
| _+1, .imp m s => some (.imp m s)
| n+1, .call tgt args =>
  match tbl.find? (fun kv => kv.1 == tgt) with
  | some kv =>
    match substT (kv.2.1.zip args) n kv.2.2 with
    | some body1 => expandT tbl n body1
    | none => none
  | none => (expandTL tbl n args).map (fun as1 => .call tgt as1)

def expandTL (tbl : List (String × (List String × Expr))) : Nat → List Expr → Option (List Expr)
| 0, _ => none
| _+1, [] => some []
| n+1, e :: es =>
  match expandT tbl n e, expandTL tbl n es with
  | some e1, some es1 => some (e1 :: es1)
  | _, _ => none

def expandTO (tbl : List (String × (List String × Expr))) : Nat → Option Expr → Option (Option Expr)
| 0, _ => none
| _+1, none => some none
| n+1, some e => (expandT tbl n e).map some

end

/-- Modelled from the spec: the orchestration contract of the Program
Runner as the spec states it — reject on failed type-schema validation
before any side effect, then install builtins into a fresh root environment,
collect the macro table from the MacroDef entries, expand macros across the
whole top-level sequence (macro definitions being consumed by expansion),
and evaluate each remaining top-level Expression in the root environment in
order, halting at the first error.  The source runProgram performs no
expansion step; this definition exists to compare the two. -/
def runProgramSpec (vjs : Json → Bool) (fuel : Nat) (p : ProgramT) : Output × Except Err Frame :=
  if validateProgramTypes vjs p then
    match expandTL (collectMacros p.program) fuel (p.program.filter (fun e => !isMDef e)) with
    | some es => runSeq fuel es createGlobalEnv [] []
    | none => ([], .error .outOfFuel)
  else
    ([], .error .invalidProgramTypes)

mutual

/-- A function table entry under the defining-scope reading of the spec: a
user function additionally carries the environment chain that was active
when it was installed.  Modelled from the spec: "User functions create a new
Environment frame as a child of the defining scope"; the source stores
{params, body} only. -/
inductive FuncValS where
| builtin (b : BuiltinName)
| user (params : List (String × String)) (body : Expr) (defEnv : EnvChainS)

/-- Environment frames for the defining-scope evaluator variant. -/
inductive Frame2 where
| mk (vars : List (String × JSVal)) (functions : FunListS)

/-- Environment chains for the defining-scope evaluator variant, current
frame first. -/
inductive EnvChainS where
| nil
| cons (f : Frame2) (rest : EnvChainS)

/-- Function tables for the defining-scope evaluator variant. -/
inductive FunListS where
| fnil
| fcons (name : String) (fn : FuncValS) (rest : FunListS)

end

/-- Variable lookup in one defining-scope frame. -/
def frame2VarLookup (n : String) : Frame2 → Option JSVal
| .mk vars _ => (vars.find? (fun kv => kv.1 == n)).map (fun kv => kv.2)

/-- Lookup in a defining-scope function table. -/
def funListLookup (n : String) : FunListS → Option FuncValS
| .fnil => none
| .fcons k fn r => if k == n then some fn else funListLookup n r

/-- Function lookup in one defining-scope frame. -/
def frame2FunLookup (n : String) : Frame2 → Option FuncValS
| .mk _ functions => funListLookup n functions

/-- setVar for the defining-scope evaluator variant. -/
def frame2SetVar (n : String) (v : JSVal) : Frame2 → Frame2
| .mk vars functions => .mk ((n, v) :: vars) functions

/-- defineFunction for the defining-scope evaluator variant. -/
def frame2DefineFunction (n : String) (fn : FuncValS) : Frame2 → Frame2
| .mk vars functions => .mk vars (.fcons n fn functions)

/-- Chain variable lookup for the defining-scope evaluator variant. -/
def getVarChain2 (n : String) : EnvChainS → Except Err JSVal
| .nil => .error (.undefinedVariable n)
| .cons f ps =>
  match frame2VarLookup n f with
  | some v => .ok v
  | none => getVarChain2 n ps

/-- Chain function lookup for the defining-scope evaluator variant. -/
def getFunctionChain2 (n : String) : EnvChainS → Except Err FuncValS
| .nil => .error (.undefinedFunction n)
| .cons f ps =>
  match frame2FunLookup n f with
  | some fn => .ok fn
  | none => getFunctionChain2 n ps

/-- The empty defining-scope frame. -/
def emptyFrame2 : Frame2 := .mk [] .fnil

/-- The root defining-scope frame with the builtins installed. -/
def createGlobalEnv2 : Frame2 :=
  builtinsList.foldl (fun f nb => frame2DefineFunction nb.1 (.builtin nb.2) f) emptyFrame2

/-- Parameter binding for the defining-scope evaluator variant. -/
def bindParams2 (params : List (String × String)) (vs : List JSVal) : Frame2 :=
  (params.zip vs).foldl (fun f pv => frame2SetVar pv.1.1 pv.2 f) emptyFrame2

mutual

/-- Modelled from the spec: the evaluator under the claim that every call to
a user-defined function creates a frame whose parent is the defining scope
(the environment the function was installed into).  It differs from evalExpr
in exactly two places: fnDef stores the environment chain active at
definition time, and the call case evaluates the body in a fresh frame whose
parent chain is that stored defining chain rather than the call-site chain.
Every other case mirrors evalExpr. -/
def evalExprS : Nat → Expr → Frame2 → EnvChainS → Output → Output × Except Err (JSVal × Frame2)
| 0, _, _, _, out => (out, .error .outOfFuel)
| _+1, .str s, cur, _, out => (out, .ok (.str s, cur))
| _+1, .num n, cur, _, out => (out, .ok (.num n, cur))
| _+1, .bool b, cur, _, out => (out, .ok (.bool b, cur))
| _+1, .null, cur, _, out => (out, .ok (.null, cur))
| _+1, .ref x, cur, ps, out =>
  (out, (getVarChain2 x (.cons cur ps)).map (fun v => (v, cur)))
| n+1, .letE nm v, cur, ps, out =>
  match evalExprS n v cur ps out with
  | (out1, .ok (val, cur1)) => (out1, .ok (val, frame2SetVar nm val cur1))
  | (out1, .error er) => (out1, .error er)
| n+1, .doE es, cur, ps, out => evalDoS n es .null cur ps out
| n+1, .ifE c t e, cur, ps, out =>
  match evalExprS n c cur ps out with
  | (out1, .ok (cv, cur1)) =>
    if truthyVal cv then evalBranchS n t cur1 ps out1
    else evalBranchS n e cur1 ps out1
  | (out1, .error er) => (out1, .error er)
| _+1, .fnDef nm params body, cur, ps, out =>
  (out, .ok (.null, frame2DefineFunction nm (.user params body (.cons cur ps)) cur))
| _+1, .macDef _ _ _, _, _, out => (out, .error .macroNotImplemented)
| _+1, .imp _ _, _, _, out => (out, .error .moduleNotImplemented)
| n+1, .call target args, cur, ps, out =>
  match getFunctionChain2 target (.cons cur ps) with
  | .error er => (out, .error er)
  | .ok fn =>
    match evalArgsS n args cur ps out with
    | (out1, .error er) => (out1, .error er)
    | (out1, .ok (vs, cur1)) =>
      match fn with
      | .builtin b =>
        match applyBuiltin b vs out1 with
        | (out2, v) => (out2, .ok (v, cur1))
      | .user params body defEnv =>
        if params.length != vs.length then
          (out1, .error (.arityMismatch target params.length vs.length))
        else
          match evalExprS n body (bindParams2 params vs) defEnv out1 with
          | (out2, .ok (v, _)) => (out2, .ok (v, cur1))
          | (out2, .error er) => (out2, .error er)

/-- Branch evaluation for the defining-scope evaluator variant. -/
def evalBranchS : Nat → Option Expr → Frame2 → EnvChainS → Output → Output × Except Err (JSVal × Frame2)
| 0, _, _, _, out => (out, .error .outOfFuel)
| _+1, none, cur, _, out => (out, .ok (.null, cur))
| n+1, some b, cur, ps, out =>
  if nodeTruthy b then evalExprS n b cur ps out
  else (out, .ok (.null, cur))

/-- Argument evaluation for the defining-scope evaluator variant. -/
def evalArgsS : Nat → List Expr → Frame2 → EnvChainS → Output → Output × Except Err (List JSVal × Frame2)
| 0, _, _, _, out => (out, .error .outOfFuel)
| _+1, [], cur, _, out => (out, .ok ([], cur))
| n+1, e :: es, cur, ps, out =>
  match evalExprS n e cur ps out with
  | (out1, .ok (v, cur1)) =>
    match evalArgsS n es cur1 ps out1 with
    | (out2, .ok (vs, cur2)) => (out2, .ok (v :: vs, cur2))
    | (out2, .error er) => (out2, .error er)
  | (out1, .error er) => (out1, .error er)

/-- Do-block evaluation for the defining-scope evaluator variant. -/
def evalDoS : Nat → List Expr → JSVal → Frame2 → EnvChainS → Output → Output × Except Err (JSVal × Frame2)
| 0, _, _, _, _, out => (out, .error .outOfFuel)
| _+1, [], acc, cur, _, out => (out, .ok (acc, cur))
| n+1, e :: es, _, cur, ps, out =>
  match evalExprS n e cur ps out with
  | (out1, .ok (v, cur1)) => evalDoS n es v cur1 ps out1
  | (out1, .error er) => (out1, .error er)

end

mutual

/-- The generic expression trees the macro expander walks (macro.ts treats
an Expression as a primitive or a string-keyed record whose field values are
primitives, nested records, or arrays of expressions, exactly the shapes the
grammar produces). -/
inductive MExpr where
| str (s : String)
| num (n : Int)
| bool (b : Bool)
| null
| obj (fields : MFields)

/-- Record fields, in host key order. -/
inductive MFields where
| fnil
| fcons (key : String) (val : MField) (rest : MFields)

/-- A field value: an expression (primitive or record) or an array of
expressions, matching the isExpressionArray / isExpressionObject / copy
trichotomy of the source walkers. -/
inductive MField where
| e (v : MExpr)
| list (es : MList)

/-- Arrays of expressions. -/
inductive MList where
| mnil
| mcons (e : MExpr) (rest : MList)

end

/-- A macro parameter: a bare name or a single-entry name-to-type record
(the grammar requires exactly one entry). -/
inductive MParam where
| pname (s : String)
| ptyped (key : String) (ty : String)

/-- getParamName: the bare name, or the first key of the record. -/
def getParamName : MParam → String
| .pname s => s
| .ptyped k _ => k

/-- The inner record of a MacroDef (macroDef.macro in the source): name,
parameter list and body. -/
structure MDef where
  name : String
  params : List MParam
  body : MExpr

/-- Key lookup in a record (the host property access expr[key]); grammar
records have unique keys. -/
def fieldsLookup (k : String) : MFields → Option MField
| .fnil => none
| .fcons key v r => if key == k then some v else fieldsLookup k r

/-- Positional indexing into an argument array; out-of-range is host
undefined, modelled as none. -/
def argGet : MList → Nat → Option MExpr
| .mnil, _ => none
| .mcons e _, 0 => some e
| .mcons _ r, i+1 => argGet r i

/-- The argument array of a macro invocation: the source casts the single
field value to an expression array and indexes it positionally; a non-array
value yields undefined at every index used, modelled as the empty array. -/
def fieldArgs : MField → MList
| .list es => es
| .e _ => .mnil

/-- Does this record constitute a macro invocation: exactly one key, and
that key names a macro in the supplied table?  Returns the macro and the
field value holding the arguments. -/
def macroInv (macros : List (String × MDef)) : MFields → Option (MDef × MField)
| .fcons k v .fnil =>
  match macros.find? (fun kv => kv.1 == k) with
  | some kv => some (kv.2, v)
  | none => none
| _ => none

/-- The parameter binding set of one expansion: each declared parameter name
bound to the positional argument expression (host undefined, i.e. none, when
the argument is missing).  Built by iterated Map.set, so a later duplicate
parameter name shadows an earlier one. -/
def mkBindingsAux : List MParam → MList → Nat → List (String × Option MExpr) → List (String × Option MExpr)
| [], _, _, acc => acc
| p :: ps, args, i, acc => mkBindingsAux ps args (i + 1) ((getParamName p, argGet args i) :: acc)

/-- Binding set for a macro expansion (see mkBindingsAux). -/
def mkBindings (params : List MParam) (args : MList) : List (String × Option MExpr) :=
  mkBindingsAux params args 0 []

/-- Binding lookup (bindings.has / bindings.get). -/
def bLookup (x : String) (b : List (String × Option MExpr)) : Option (Option MExpr) :=
  (b.find? (fun kv => kv.1 == x)).map (fun kv => kv.2)

mutual

/-- substitute from macro.ts: primitives pass through; a record with a
string-valued ref field whose name is bound to a defined value is replaced
by that bound argument expression (not recursed into); every other record is
rebuilt with substitution applied to nested expressions — field values that
are arrays element-wise, field values that are records recursively, other
field values copied. -/
def substM (b : List (String × Option MExpr)) : MExpr → MExpr
| .str s => .str s
| .num n => .num n
| .bool v => .bool v
| .null => .null
| .obj fs =>
  match fieldsLookup "ref" fs with
  | some (.e (.str x)) =>
    match bLookup x b with
    | some (some v) => v
    | _ => .obj (substFs b fs)
  | _ => .obj (substFs b fs)

/-- Substitution over record fields. -/
def substFs (b : List (String × Option MExpr)) : MFields → MFields
| .fnil => .fnil
| .fcons k v r => .fcons k (substFld b v) (substFs b r)

/-- Substitution over one field value (the source trichotomy: arrays map,
records recurse, primitives copy). -/
def substFld (b : List (String × Option MExpr)) : MField → MField
| .e (.obj fs) => .e (substM b (.obj fs))
| .e v => .e v
| .list es => .list (substL b es)

/-- Substitution over an expression array. -/
def substL (b : List (String × Option MExpr)) : MList → MList
| .mnil => .mnil
| .mcons e r => .mcons (substM b e) (substL b r)

end

mutual

/-- expand from macro.ts: primitives pass through; a single-key record whose
key names a macro binds the declared parameters to the unevaluated
positional arguments, substitutes them into the macro body, and re-expands
the substituted result (no depth limit beyond the fuel artifact of this
model); every other record is rebuilt with its nested expressions expanded
(arrays element-wise, records recursively, other field values copied).
Fuel is consumed at every step; none models only fuel exhaustion, which in
the source is divergence. -/
def expandM (macros : List (String × MDef)) : Nat → MExpr → Option MExpr
| 0, _ => none
| _+1, .str s => some (.str s)
| _+1, .num n => some (.num n)
| _+1, .bool v => some (.bool v)
| _+1, .null => some .null
| n+1, .obj fs =>
  match macroInv macros fs with
  | some (md, argsField) =>
    expandM macros n (substM (mkBindings md.params (fieldArgs argsField)) md.body)
  | none => (expandFs macros n fs).map .obj

/-- Expansion over record fields. -/
def expandFs (macros : List (String × MDef)) : Nat → MFields → Option MFields
| 0, _ => none
| _+1, .fnil => some .fnil
| n+1, .fcons k v r =>
  match expandFld macros n v, expandFs macros n r with
  | some v1, some r1 => some (.fcons k v1 r1)
  | _, _ => none

/-- Expansion over one field value. -/
def expandFld (macros : List (String × MDef)) : Nat → MField → Option MField
| 0, _ => none
| n+1, .e (.obj fs) => (expandM macros n (.obj fs)).map .e
| _+1, .e v => some (.e v)
| n+1, .list es => (expandL macros n es).map .list

/-- Expansion over an expression array. -/
def expandL (macros : List (String × MDef)) : Nat → MList → Option MList
| 0, _ => none
| _+1, .mnil => some .mnil
| n+1, .mcons e r =>
  match expandM macros n e, expandL macros n r with
  | some e1, some r1 => some (.mcons e1 r1)
  | _, _ => none

end

mutual

/-- No subtree of this expression is a macro invocation for the supplied
table: no single-key record anywhere has a key present in the table. -/
def noInv (macros : List (String × MDef)) : MExpr → Bool
| .str _ => true
| .num _ => true
| .bool _ => true
| .null => true
| .obj fs => (macroInv macros fs).isNone && noInvFs macros fs

/-- noInv over record fields. -/
def noInvFs (macros : List (String × MDef)) : MFields → Bool
| .fnil => true
| .fcons _ v r => noInvFld macros v && noInvFs macros r

/-- noInv over one field value. -/
def noInvFld (macros : List (String × MDef)) : MField → Bool
| .e v => noInv macros v
| .list es => noInvL macros es

/-- noInv over an expression array. -/
def noInvL (macros : List (String × MDef)) : MList → Bool
| .mnil => true
| .mcons e r => noInv macros e && noInvL macros r

end

mutual

/-- Fuel bound for a full non-expanding walk of an expression (see the
claim that expansion with no applicable macros is the identity). -/
def msize : MExpr → Nat
| .str _ => 1
| .num _ => 1
| .bool _ => 1
| .null => 1
| .obj fs => msizeFs fs + 1

/-- Fuel bound over record fields. -/
def msizeFs : MFields → Nat
| .fnil => 1
| .fcons _ v r => max (msizeFld v) (msizeFs r) + 1

/-- Fuel bound over one field value. -/
def msizeFld : MField → Nat
| .e v => msize v + 1
| .list es => msizeL es + 1

/-- Fuel bound over an expression array. -/
def msizeL : MList → Nat
| .mnil => 1
| .mcons e r => max (msize e) (msizeL r) + 1

end

mutual

/-- Does the key occur anywhere in the tree (as a record key at any
depth)? -/
def hasKeyM (k : String) : MExpr → Bool
| .str _ => false
| .num _ => false
| .bool _ => false
| .null => false
| .obj fs => hasKeyFs k fs

/-- hasKeyM over record fields. -/
def hasKeyFs (k : String) : MFields → Bool
| .fnil => false
| .fcons key v r => key == k || hasKeyFld k v || hasKeyFs k r

/-- hasKeyM over one field value. -/
def hasKeyFld (k : String) : MField → Bool
| .e v => hasKeyM k v
| .list es => hasKeyL k es

/-- hasKeyM over an expression array. -/
def hasKeyL (k : String) : MList → Bool
| .mnil => false
| .mcons e r => hasKeyM k e || hasKeyL k r

end

/-- A branch expression that is a falsy literal as a host value: false, 0,
the empty string, or null. -/
def isFalsyLit : Expr → Bool
| .bool b => !b
| .num n => n == 0
| .str s => s == ""
| .null => true
| _ => false

/- Concrete inputs used by the claim theorems and their witnesses. -/

/-- The macro body of unless(condition, body):
{if:{condition:{ref:"condition"}, false:{ref:"body"}}}. -/
def unlessBody : MExpr :=
  .obj (.fcons "if" (.e (.obj
    (.fcons "condition" (.e (.obj (.fcons "ref" (.e (.str "condition")) .fnil)))
    (.fcons "false" (.e (.obj (.fcons "ref" (.e (.str "body")) .fnil)))
    .fnil)))) .fnil)

/-- A macro table holding only unless(condition, body). -/
def unlessMacros : List (String × MDef) :=
  [("unless", { name := "unless", params := [.pname "condition", .pname "body"],
                body := unlessBody })]

/-- The first unless argument: {equals:[1,2]}. -/
def equalsArg : MExpr :=
  .obj (.fcons "equals" (.list (.mcons (.num 1) (.mcons (.num 2) .mnil))) .fnil)

/-- The second unless argument: {print:["x"]}. -/
def printArg : MExpr :=
  .obj (.fcons "print" (.list (.mcons (.str "x") .mnil)) .fnil)

/-- The invocation {unless:[{equals:[1,2]}, {print:["x"]}]}. -/
def unlessInvocation : MExpr :=
  .obj (.fcons "unless" (.list (.mcons equalsArg (.mcons printArg .mnil))) .fnil)

/-- The expected expansion: an if whose condition is the first argument and
whose false-branch is the second, both substituted unevaluated. -/
def unlessExpanded : MExpr :=
  .obj (.fcons "if" (.e (.obj
    (.fcons "condition" (.e equalsArg)
    (.fcons "false" (.e printArg)
    .fnil)))) .fnil)

/-- The invocation {m:[]} of the self-referential macro m. -/
def selfInvocation : MExpr :=
  .obj (.fcons "m" (.list .mnil) .fnil)

/-- A macro table with the macro m() whose body invokes m itself. -/
def selfMacros : List (String × MDef) :=
  [("m", { name := "m", params := [], body := selfInvocation })]

/-- A program probing which environment a user function body resolves its
free variables against: f(a) reads the free variable y; g(b) binds y by let
in its own frame and then calls f; the top level defines both and calls g.
Under the source (call-site parent) y resolves to 42; under a defining-scope
parent y would be unbound. -/
def dynScopeProbe : Expr :=
  .doE [
    .fnDef "f" [("a", "any")] (.ref "y"),
    .fnDef "g" [("b", "any")] (.doE [.letE "y" (.num 42), .call "f" [.num 1]]),
    .call "g" [.num 0]]

/-- The root frame after dynScopeProbe has defined f and g. -/
def dynScopeFinalFrame : Frame :=
  frameDefineFunction "g"
    (.user [("b", "any")] (.doE [.letE "y" (.num 42), .call "f" [.num 1]]))
    (frameDefineFunction "f" (.user [("a", "any")] (.ref "y")) createGlobalEnv)

/-- A shape-valid program that defines a macro m() = 5 and then invokes it
inside a let. -/
def macroUseProg : ProgramT :=
  { jexl_version := "v0.1", name := "macro-use", types := none, modules := none,
    program := [.macDef "m" [] (.num 5), .letE "x" (.call "m" [])] }

/-- A shape-valid program declaring one type document (used with a rejecting
schema validator to exercise the validation gate). -/
def typedProg : ProgramT :=
  { jexl_version := "v0.1", name := "typed", types := some [("t", .null)],
    modules := none, program := [.num 1] }

/-- A frame defining one two-parameter user function f(a, b) = null. -/
def twoParamFrame : Frame :=
  frameDefineFunction "f" (.user [("a", "t"), ("b", "t")] .null) emptyFrame

/-- A frame defining the identity-like function id1(a) = a. -/
def oneParamFrame : Frame :=
  frameDefineFunction "id1" (.user [("a", "t")] (.ref "a")) emptyFrame

/- Theorems. -/

/-- Claim C1, counterexample: runProgram does not expand macros.  On the
shape-valid program [macro m() = 5, let x = {m:[]}] the source runProgram
halts with the macro-not-implemented error (the MacroDef reaches the
evaluator), while the pipeline the claim describes (collect the macro table,
expand the top-level sequence, evaluate) runs to completion binding x to 5;
so the claim, as stated, is false at this input. -/
theorem c1_counterexample :
    runProgram (fun _ => true) 10 macroUseProg = ([], .error .macroNotImplemented)
    ∧ runProgramSpec (fun _ => true) 10 macroUseProg
        = ([], .ok (frameSetVar "x" (.num 5) createGlobalEnv)) := ⟨rfl, rfl⟩

/-- Claim C1, amended: runProgram rejects the program with no output when
type-schema validation fails; otherwise it installs the builtins into a
fresh root Environment and evaluates each top-level Expression there in
order, halting at the first error (the sequencing law below); it performs no
macro expansion. -/
theorem c1_amended :
    (∀ (vjs : Json → Bool) (fuel : Nat) (p : ProgramT),
        validateProgramTypes vjs p = false →
        runProgram vjs fuel p = ([], .error .invalidProgramTypes))
    ∧ (∀ (vjs : Json → Bool) (fuel : Nat) (p : ProgramT),
        validateProgramTypes vjs p = true →
        runProgram vjs fuel p = runSeq fuel p.program createGlobalEnv [] [])
    ∧ (∀ (fuel : Nat) (es es2 : List Expr) (cur : Frame) (ps : List Frame) (out : Output),
        runSeq fuel (es ++ es2) cur ps out
          = (match runSeq fuel es cur ps out with
             | (out1, .ok cur1) => runSeq fuel es2 cur1 ps out1
             | (out1, .error er) => (out1, .error er))) := by
  refine ⟨?_, ?_, ?_⟩
  · intro vjs fuel p h
    simp [runProgram, h]
  · intro vjs fuel p h
    simp [runProgram, h]
  · intro fuel es es2 cur ps out
    induction es generalizing cur out with
    | nil => rfl
    | cons e es ih =>
      simp only [List.cons_append, runSeq]
      cases evalExpr fuel e cur ps out with
      | mk out1 r =>
        cases r with
        | ok vc =>
          cases vc with
          | mk v cur1 => simpa using ih cur1 out1
        | error er => rfl

/-- Claim C1, witness: the amended theorem applied to a program whose only
declared type document is rejected by the schema validator, to a program
that validates, and to a concrete split of a top-level sequence. -/
theorem c1_amended_witness :
    validateProgramTypes (fun _ => false) typedProg = false
    ∧ runProgram (fun _ => false) 5 typedProg = ([], .error .invalidProgramTypes)
    ∧ validateProgramTypes (fun _ => true) macroUseProg = true
    ∧ runProgram (fun _ => true) 5 macroUseProg
        = runSeq 5 macroUseProg.program createGlobalEnv [] []
    ∧ runSeq 3 ([.num 1] ++ [.num 2]) createGlobalEnv [] []
        = (match runSeq 3 [.num 1] createGlobalEnv [] [] with
           | (out1, .ok cur1) => runSeq 3 [.num 2] cur1 [] out1
           | (out1, .error er) => (out1, .error er)) := by
  refine ⟨rfl, ?_, rfl, ?_, ?_⟩
  · exact c1_amended.1 (fun _ => false) 5 typedProg rfl
  · exact c1_amended.2.1 (fun _ => true) 5 macroUseProg rfl
  · exact c1_amended.2.2 3 [.num 1] [.num 2] createGlobalEnv [] []

/-- Claim C2, counterexample: the if expression uses host truthiness, under
which 0 is falsy, so {if:{condition:0, true:"a", false:"b"}} evaluates to
"b", not "a", already in the global environment. -/
theorem c2_counterexample :
    evalExpr 5 (.ifE (.num 0) (some (.str "a")) (some (.str "b"))) createGlobalEnv [] []
      = ([], .ok (.str "b", createGlobalEnv))
    ∧ ("b" == "a") = false := ⟨rfl, rfl⟩

/-- Claim C2, amended: the condition values selecting the else branch are
exactly the host-falsy ones — boolean false, null, 0, the empty string,
undefined and NaN; nonzero numbers, nonempty strings, sequences and mappings
select the then branch.  In particular the condition-0 example yields "b"
in every environment and output state. -/
theorem c2_amended :
    (∀ v : JSVal, truthyVal v = false ↔
      (v = .bool false ∨ v = .null ∨ v = .num 0 ∨ v = .str "" ∨ v = .undefV ∨ v = .nan))
    ∧ (∀ (fuel : Nat) (cur : Frame) (ps : List Frame) (out : Output),
        evalExpr (fuel + 3) (.ifE (.num 0) (some (.str "a")) (some (.str "b"))) cur ps out
          = (out, .ok (.str "b", cur))) := by
  constructor
  · intro v
    cases v <;> simp [truthyVal]
  · intro fuel cur ps out
    rfl

/-- Claim C2, witness: the amended theorem evaluated in the global
environment. -/
theorem c2_amended_witness :
    truthyVal (.num 0) = false
    ∧ evalExpr 3 (.ifE (.num 0) (some (.str "a")) (some (.str "b"))) createGlobalEnv [] []
        = ([], .ok (.str "b", createGlobalEnv)) :=
  ⟨((c2_amended.1 (.num 0)).mpr (Or.inr (Or.inr (Or.inl rfl)))),
   c2_amended.2 0 createGlobalEnv [] []⟩

/-- Claim C3, counterexample: user function calls chain the fresh frame to
the call-site environment, not the defining scope.  In dynScopeProbe the
body of f reads the free variable y, bound only by a let inside the caller
g: the source evaluator returns 42 (resolving y through the call-site
chain), while the defining-scope evaluator modelled from the claim fails
with an unbound-variable error on y; so the claim, as stated, is false at
this input. -/
theorem c3_counterexample :
    evalExpr 30 dynScopeProbe createGlobalEnv [] []
      = ([], .ok (.num 42, dynScopeFinalFrame))
    ∧ evalExprS 30 dynScopeProbe createGlobalEnv2 .nil []
      = ([], .error (.undefinedVariable "y")) := ⟨rfl, rfl⟩

/-- Claim C3, amended: a call to a user-defined function evaluates its body
in a fresh frame binding each parameter name positionally to the
corresponding evaluated argument, whose parent chain is the call-site
environment (the chain the Call itself is being evaluated in, with the
frame as updated by argument evaluation); the stored function carries no
defining environment. -/
theorem c3_amended : ∀ (fuel : Nat) (target : String) (args : List Expr)
    (params : List (String × String)) (body : Expr) (cur cur1 : Frame)
    (ps : List Frame) (out out1 : Output) (vs : List JSVal),
    getFunctionChain target (cur :: ps) = .ok (.user params body) →
    evalArgs fuel args cur ps out = (out1, .ok (vs, cur1)) →
    params.length = vs.length →
    evalExpr (fuel + 1) (.call target args) cur ps out
      = (match evalExpr fuel body (bindParams params vs) (cur1 :: ps) out1 with
         | (out2, .ok (v, _)) => (out2, .ok (v, cur1))
         | (out2, .error er) => (out2, .error er)) := by
  intro fuel target args params body cur cur1 ps out out1 vs hf ha hlen
  simp [evalExpr, hf, ha, hlen]

/-- Claim C3, witness: the amended theorem applied to the call id1(7) in a
frame defining id1(a) = a. -/
theorem c3_amended_witness :
    getFunctionChain "id1" (oneParamFrame :: []) = .ok (.user [("a", "t")] (.ref "a"))
    ∧ evalArgs 3 [.num 7] oneParamFrame [] [] = ([], .ok ([.num 7], oneParamFrame))
    ∧ evalExpr 4 (.call "id1" [.num 7]) oneParamFrame [] []
        = (match evalExpr 3 (.ref "a") (bindParams [("a", "t")] [.num 7])
             (oneParamFrame :: []) [] with
           | (out2, .ok (v, _)) => (out2, .ok (v, oneParamFrame))
           | (out2, .error er) => (out2, .error er)) := by
  refine ⟨rfl, rfl, ?_⟩
  exact c3_amended 3 "id1" [.num 7] [("a", "t")] (.ref "a") oneParamFrame oneParamFrame
    [] [] [] [.num 7] rfl rfl rfl

/-- Claim C4, counterexample: builtin calls are not arity-checked.  The
builtin add declares two parameters, yet the call {add:[1,2,3]} evaluates
successfully to 3 (the extra argument is ignored under host call semantics)
instead of failing with an arity-mismatch error; so the claim, as stated
over every Call, is false at this input. -/
theorem c4_counterexample :
    evalExpr 5 (.call "add" [.num 1, .num 2, .num 3]) createGlobalEnv [] []
      = ([], .ok (.num 3, createGlobalEnv))
    ∧ builtinParamCount .add = some 2
    ∧ (3 : Nat) ≠ 2 := ⟨rfl, rfl, by decide⟩

/-- Claim C4, amended: for every call to a user-defined function whose
argument count differs from the declared parameter count, evaluation fails
(after evaluating the arguments) with an arity-mismatch error naming the
function, the expected count and the actual count; calls to builtins are not
arity-checked. -/
theorem c4_amended : ∀ (fuel : Nat) (target : String) (args : List Expr)
    (params : List (String × String)) (body : Expr) (cur cur1 : Frame)
    (ps : List Frame) (out out1 : Output) (vs : List JSVal),
    getFunctionChain target (cur :: ps) = .ok (.user params body) →
    evalArgs fuel args cur ps out = (out1, .ok (vs, cur1)) →
    params.length ≠ vs.length →
    evalExpr (fuel + 1) (.call target args) cur ps out
      = (out1, .error (.arityMismatch target params.length vs.length)) := by
  intro fuel target args params body cur cur1 ps out out1 vs hf ha hne
  simp [evalExpr, hf, ha, hne]

/-- Claim C4, witness: calling the two-parameter user function f with one
argument fails with the arity-mismatch error naming f, expected 2,
actual 1. -/
theorem c4_amended_witness :
    getFunctionChain "f" (twoParamFrame :: []) = .ok (.user [("a", "t"), ("b", "t")] .null)
    ∧ evalArgs 3 [.num 1] twoParamFrame [] [] = ([], .ok ([.num 1], twoParamFrame))
    ∧ (2 : Nat) ≠ 1
    ∧ evalExpr 4 (.call "f" [.num 1]) twoParamFrame [] []
        = ([], .error (.arityMismatch "f" 2 1)) := by
  refine ⟨rfl, rfl, by decide, ?_⟩
  exact c4_amended 3 "f" [.num 1] [("a", "t"), ("b", "t")] .null twoParamFrame twoParamFrame
    [] [] [] [.num 1] rfl rfl (by decide)

/-- Claim C5, counterexample: the equals builtin is host strict equality,
which is reference identity on sequences: two separately constructed
(distinct-identity) sequences with equal elements compare false under the
builtin although they are structurally equal; so the claim, as stated, is
false at this input. -/
theorem c5_counterexample :
    applyBuiltin .equals [.arr 0 (.cons (.num 1) .nil), .arr 1 (.cons (.num 1) .nil)] []
      = ([], .bool false)
    ∧ structEq (.arr 0 (.cons (.num 1) .nil)) (.arr 1 (.cons (.num 1) .nil)) = true :=
  ⟨rfl, rfl⟩

/-- Claim C5, amended: the equals builtin coincides with structural equality
on primitive values (strings, numbers, booleans, null, undefined), but on
sequences it compares reference identity, so two separately constructed
element-wise equal sequences compare unequal. -/
theorem c5_amended :
    (∀ (a b : JSVal) (out : Output), isPrim a = true → isPrim b = true →
        applyBuiltin .equals [a, b] out = (out, .bool (structEq a b)))
    ∧ (∀ (i j : Nat) (xs ys : JSList) (out : Output), i ≠ j →
        applyBuiltin .equals [.arr i xs, .arr j ys] out = (out, .bool false)) := by
  constructor
  · intro a b out ha hb
    cases a <;> cases b <;> simp_all [isPrim, applyBuiltin, argD, strictEq, structEq]
  · intro i j xs ys out hij
    simp [applyBuiltin, argD, strictEq, hij]

/-- Claim C5, witness: the amended theorem applied to a pair of equal
primitive numbers and to a pair of distinct-identity sequences. -/
theorem c5_amended_witness :
    isPrim (.num 1) = true
    ∧ applyBuiltin .equals [.num 1, .num 1] [] = ([], .bool (structEq (.num 1) (.num 1)))
    ∧ (0 : Nat) ≠ 1
    ∧ applyBuiltin .equals [.arr 0 .nil, .arr 1 .nil] [] = ([], .bool false) := by
  refine ⟨rfl, ?_, by decide, ?_⟩
  · exact c5_amended.1 (.num 1) (.num 1) [] rfl rfl
  · exact c5_amended.2 0 1 .nil .nil [] (by decide)

mutual

/-- Expansion of a tree with no macro invocations is the identity (given
fuel covering a full walk); main lemma for the claim on expansion without
applicable macros. -/
theorem expandM_noInv (macros : List (String × MDef)) :
    (e : MExpr) → (fuel : Nat) → noInv macros e = true → msize e ≤ fuel →
    expandM macros fuel e = some e
| .str s, fuel, _, hs => by
  cases fuel with
  | zero => simp [msize] at hs
  | succ n => rfl
| .num m, fuel, _, hs => by
  cases fuel with
  | zero => simp [msize] at hs
  | succ n => rfl
| .bool b, fuel, _, hs => by
  cases fuel with
  | zero => simp [msize] at hs
  | succ n => rfl
| .null, fuel, _, hs => by
  cases fuel with
  | zero => simp [msize] at hs
  | succ n => rfl
| .obj fs, fuel, h, hs => by
  cases fuel with
  | zero => simp [msize] at hs
  | succ n =>
    simp only [noInv, Bool.and_eq_true] at h
    have hinv : macroInv macros fs = none := Option.isNone_iff_eq_none.mp h.1
    have hsz : msizeFs fs ≤ n := by
      simp only [msize] at hs
      omega
    simp [expandM, hinv, expandFs_noInv macros fs n h.2 hsz]

/-- Identity of no-invocation expansion over record fields. -/
theorem expandFs_noInv (macros : List (String × MDef)) :
    (fs : MFields) → (fuel : Nat) → noInvFs macros fs = true → msizeFs fs ≤ fuel →
    expandFs macros fuel fs = some fs
| .fnil, fuel, _, hs => by
  cases fuel with
  | zero => simp [msizeFs] at hs
  | succ n => rfl
| .fcons k v r, fuel, h, hs => by
  cases fuel with
  | zero => simp [msizeFs] at hs
  | succ n =>
    simp only [noInvFs, Bool.and_eq_true] at h
    have hsv : msizeFld v ≤ n := by
      simp only [msizeFs] at hs
      omega
    have hsr : msizeFs r ≤ n := by
      simp only [msizeFs] at hs
      omega
    simp [expandFs, expandFld_noInv macros v n h.1 hsv, expandFs_noInv macros r n h.2 hsr]

/-- Identity of no-invocation expansion over one field value. -/
theorem expandFld_noInv (macros : List (String × MDef)) :
    (v : MField) → (fuel : Nat) → noInvFld macros v = true → msizeFld v ≤ fuel →
    expandFld macros fuel v = some v
| .e w, fuel, h, hs => by
  cases fuel with
  | zero => simp [msizeFld] at hs
  | succ n =>
    cases w with
    | obj fs =>
      have hw : noInv macros (.obj fs) = true := by simpa [noInvFld] using h
      have hsz : msize (.obj fs) ≤ n := by
        simp only [msizeFld] at hs
        omega
      simp [expandFld, expandM_noInv macros (.obj fs) n hw hsz]
    | str s => rfl
    | num m => rfl
    | bool b => rfl
    | null => rfl
| .list es, fuel, h, hs => by
  cases fuel with
  | zero => simp [msizeFld] at hs
  | succ n =>
    have hw : noInvL macros es = true := by simpa [noInvFld] using h
    have hsz : msizeL es ≤ n := by
      simp only [msizeFld] at hs
      omega
    simp [expandFld, expandL_noInv macros es n hw hsz]

/-- Identity of no-invocation expansion over an expression array. -/
theorem expandL_noInv (macros : List (String × MDef)) :
    (es : MList) → (fuel : Nat) → noInvL macros es = true → msizeL es ≤ fuel →
    expandL macros fuel es = some es
| .mnil, fuel, _, hs => by
  cases fuel with
  | zero => simp [msizeL] at hs
  | succ n => rfl
| .mcons e r, fuel, h, hs => by
  cases fuel with
  | zero => simp [msizeL] at hs
  | succ n =>
    simp only [noInvL, Bool.and_eq_true] at h
    have hse : msize e ≤ n := by
      simp only [msizeL] at hs
      omega
    have hsr : msizeL r ≤ n := by
      simp only [msizeL] at hs
      omega
    simp [expandL, expandM_noInv macros e n h.1 hse, expandL_noInv macros r n h.2 hsr]

end

/-- Claim C6: for every macro table and every expression tree containing no
invocation of any name in the table (no single-key record anywhere whose key
is in the table), expansion returns the structurally identical tree (for any
fuel covering a full walk of the tree). -/
theorem c6_confirmed : ∀ (macros : List (String × MDef)) (e : MExpr) (fuel : Nat),
    noInv macros e = true → msize e ≤ fuel → expandM macros fuel e = some e :=
  fun macros e fuel h hs => expandM_noInv macros e fuel h hs

/-- Claim C6, witness: the tree {equals:[1,2]} contains no invocation of the
unless macro and expands to itself. -/
theorem c6_witness :
    noInv unlessMacros equalsArg = true
    ∧ msize equalsArg ≤ 10
    ∧ expandM unlessMacros 10 equalsArg = some equalsArg := by
  refine ⟨rfl, by decide, ?_⟩
  exact c6_confirmed unlessMacros equalsArg 10 rfl (by decide)

/-- Claim C7: expanding {unless:[{equals:[1,2]}, {print:["x"]}]} with the
macro unless(condition, body) = {if:{condition:{ref:"condition"},
false:{ref:"body"}}} yields the if expression whose condition is the literal
argument {equals:[1,2]} and whose false-branch is the literal argument
{print:["x"]} (substituted unevaluated), with no unless key remaining
anywhere in the result. -/
theorem c7_confirmed :
    expandM unlessMacros 20 unlessInvocation = some unlessExpanded
    ∧ hasKeyM "unless" unlessExpanded = false := ⟨rfl, rfl⟩

/-- Claim C8: setVar writes into the current frame only; after a Let in a
child frame for a name also bound in a parent frame, every parent frame
(the shadowed binding included) passes through unchanged and getVar in the
child chain returns the new shadowing value; the Let itself returns the
assigned value together with the current frame extended by the binding. -/
theorem c8_confirmed : ∀ (nm : String) (w : JSVal) (cur pf : Frame) (ps1 ps2 : List Frame)
    (old : JSVal), frameVarLookup nm pf = some old →
    setVarChain nm w (cur :: (ps1 ++ pf :: ps2)) = frameSetVar nm w cur :: (ps1 ++ pf :: ps2)
    ∧ getVarChain nm (setVarChain nm w (cur :: (ps1 ++ pf :: ps2))) = .ok w
    ∧ (∀ (fuel : Nat) (q : Int) (out : Output),
        evalExpr (fuel + 2) (.letE nm (.num q)) cur (ps1 ++ pf :: ps2) out
          = (out, .ok (.num q, frameSetVar nm (.num q) cur))) := by
  intro nm w cur pf ps1 ps2 old hold
  refine ⟨rfl, ?_, fun fuel q out => rfl⟩
  simp [setVarChain, getVarChain, frameVarLookup, frameSetVar]

/-- Claim C8, witness: let x = 2 in an empty child frame whose parent binds
x to 1: the parent binding stays 1, the chain reads back 2. -/
theorem c8_witness :
    frameVarLookup "x" (frameSetVar "x" (.num 1) emptyFrame) = some (.num 1)
    ∧ getVarChain "x" (setVarChain "x" (.num 2)
        (emptyFrame :: ([] ++ frameSetVar "x" (.num 1) emptyFrame :: []))) = .ok (.num 2)
    ∧ evalExpr 5 (.letE "x" (.num 2)) emptyFrame
        ([] ++ frameSetVar "x" (.num 1) emptyFrame :: []) []
        = ([], .ok (.num 2, frameSetVar "x" (.num 2) emptyFrame)) := by
  refine ⟨rfl, ?_, ?_⟩
  · exact (c8_confirmed "x" (.num 2) emptyFrame (frameSetVar "x" (.num 1) emptyFrame) [] []
      (.num 1) rfl).2.1
  · exact (c8_confirmed "x" (.num 2) emptyFrame (frameSetVar "x" (.num 1) emptyFrame) [] []
      (.num 1) rfl).2.2 3 2 []

/-- Claim C9: the expander imposes no depth limit on re-expansion — after
substitution it unconditionally re-expands the result, so on the macro m()
whose body invokes m itself, expansion of {m:[]} consumes every amount of
fuel without producing a result: the source expand diverges there, and
termination is the responsibility of the caller. -/
theorem c9_confirmed : ∀ fuel : Nat, expandM selfMacros fuel selfInvocation = none := by
  intro fuel
  induction fuel with
  | zero => rfl
  | succ n ih => exact ih

/-- Helper for the branch-presence claim: a falsy-literal branch node is
host-falsy as a value. -/
theorem nodeTruthy_of_falsyLit (t : Expr) (h : isFalsyLit t = true) : nodeTruthy t = false := by
  cases t <;> simp_all [isFalsyLit, nodeTruthy]

/-- Claim C10: branch presence in an if expression is decided by host
truthiness of the branch node itself — whenever the condition evaluates
truthy but the then-branch is a falsy literal node (false, 0, "", or null),
evaluation yields null rather than that literal value, and symmetrically for
a falsy-literal else-branch under a falsy condition. -/
theorem c10_confirmed : ∀ (fuel : Nat) (c t : Expr) (e : Option Expr) (cur cur1 : Frame)
    (ps : List Frame) (out out1 : Output) (cv : JSVal),
    evalExpr (fuel + 1) c cur ps out = (out1, .ok (cv, cur1)) →
    isFalsyLit t = true →
    (truthyVal cv = true →
      evalExpr (fuel + 2) (.ifE c (some t) e) cur ps out = (out1, .ok (.null, cur1)))
    ∧ (truthyVal cv = false →
      evalExpr (fuel + 2) (.ifE c e (some t)) cur ps out = (out1, .ok (.null, cur1))) := by
  intro fuel c t e cur cur1 ps out out1 cv hc ht
  have hnt := nodeTruthy_of_falsyLit t ht
  constructor
  · intro htr
    simp [evalExpr, hc, htr, evalBranch, hnt]
  · intro hfa
    simp [evalExpr, hc, hfa, evalBranch, hnt]

/-- Claim C10, witness: {if:{condition:true, true:0}} evaluates to null, not
to the literal 0. -/
theorem c10_witness :
    evalExpr 2 (.bool true) createGlobalEnv [] [] = ([], .ok (.bool true, createGlobalEnv))
    ∧ isFalsyLit (.num 0) = true
    ∧ evalExpr 3 (.ifE (.bool true) (some (.num 0)) none) createGlobalEnv [] []
        = ([], .ok (.null, createGlobalEnv)) := by
  refine ⟨rfl, rfl, ?_⟩
  exact (c10_confirmed 1 (.bool true) (.num 0) none createGlobalEnv createGlobalEnv [] [] []
    (.bool true) rfl rfl).1 rfl

end Jexl
